import Mathlib

/-!
A shallow embedding of the BrainF interpreter (src/main.rs) together with
theorems settling the specification's claims about it.

The embedding follows the Rust source: `Commands`, `Token`, `ParsingValue`,
`TokenSequence` with `divide_cmd_slice`, the `From<Vec<Commands>>`
conversion, and the `BrainFuckExecutor` tape dimensions.  The executor
itself (tree-walking interpretation, tape/pointer arithmetic, I/O) is not
implemented in the source; where a claim needs it, a definition modelled
from the spec is used and marked as such in its doc comment.
-/

/-- The eight command variants from the Rust `Commands` enum. -/
inductive Commands where
  | PTR_LEFT
  | PRT_RIGHT
  | INCR
  | DECR
  | OUTP
  | INPT
  | IF_ZERO
  | JMP_NZERO
deriving DecidableEq, Repr

/-- `Commands::not_block`: whether the command should not begin/close a code block. -/
def Commands.not_block (c : Commands) : Bool :=
  c != Commands.IF_ZERO && c != Commands.JMP_NZERO

/-- `Into<&str> for Commands`: the one-character rendering of each command. -/
def Commands.into_str : Commands → String
  | Commands.DECR => "-"
  | Commands.IF_ZERO => "["
  | Commands.INCR => "+"
  | Commands.INPT => ","
  | Commands.JMP_NZERO => "]"
  | Commands.OUTP => "."
  | Commands.PRT_RIGHT => ">"
  | Commands.PTR_LEFT => "<"

/-- `TryFrom<&str> for Commands`: parse a string into a command, `Err(())`
on anything other than the eight command strings.  The Rust `match` on
string literals is rendered as a sequential comparison chain. -/
def Commands.try_from (value : String) : Except Unit Commands :=
  if value = "-" then Except.ok Commands.DECR
  else if value = "[" then Except.ok Commands.IF_ZERO
  else if value = "+" then Except.ok Commands.INCR
  else if value = "," then Except.ok Commands.INPT
  else if value = "]" then Except.ok Commands.JMP_NZERO
  else if value = "." then Except.ok Commands.OUTP
  else if value = ">" then Except.ok Commands.PRT_RIGHT
  else if value = "<" then Except.ok Commands.PTR_LEFT
  else Except.error ()

/-- `type CellType = u8`: the cell bit width configured in the source. -/
def cellWidth : Nat := 8

/-- `u8::MAX`, the maximum value of `CellType`. -/
def cellTypeMax : Nat := 2 ^ cellWidth - 1

/-- The `Token` enum from the source (execution tokens). -/
inductive Token where
  | Decrement (n : Nat)
  | Increment (n : Nat)
  | IfZeroBlock (cmds : List Commands)
  | JumpIfNotZero
  | Output
  | PointerRight (n : Nat)
  | PointerLeft (n : Nat)
deriving DecidableEq

/-- The `ParsingValue` enum from the source: a single command or a block. -/
inductive ParsingValue where
  | Command (c : Commands)
  | Block (vs : List ParsingValue)

/-- A Rust `Vec` modelled as its contents plus its reserved capacity, so that
`Vec::with_capacity` is observable. -/
structure RustVec (α : Type) where
  data : List α
  capacity : Nat

/-- The `TokenSequence` struct: a sequence of tokens. -/
structure TokenSequence where
  tokens : RustVec Token

/-- `TokenSequence::with_capacity`. -/
def TokenSequence.with_capacity (capacity : Nat) : TokenSequence :=
  { tokens := { data := [], capacity := capacity } }

/-- `TokenSequence::divide_cmd_slice`, the loop body.  `full` is `cmd_slice`;
the scan position `idx` and the mutable loop state (`ifz_level`, `ifz_start`,
`ifz_started`, `res`) are explicit arguments.  Faithful to the source,
including `ifz_level -= 0` on `JMP_NZERO` and the never-updated `ifz_start`. -/
def divideGo (full : List Commands) (idx ifz_level ifz_start : Nat)
    (ifz_started : Bool) (res : List ParsingValue) : List ParsingValue :=
  match h : full[idx]? with
  | none => res
  | some cmd =>
    let step :=
      if !ifz_started && cmd.not_block then
        (ifz_level, ifz_started, res ++ [ParsingValue.Command cmd])
      else if cmd = Commands.IF_ZERO then
        (ifz_level + 1, true, res)
      else if cmd = Commands.JMP_NZERO then
        (ifz_level - 0, ifz_started, res)
      else
        (ifz_level, ifz_started, res)
    let lvl := step.1
    let started := step.2.1
    let res1 := step.2.2
    if started && lvl == 0 then
      divideGo full (idx + 1) lvl ifz_start false
        (res1 ++ [ParsingValue.Block
          (divideGo ((full.drop (ifz_start + 1)).take (idx - (ifz_start + 1)))
            0 0 0 false [])])
    else
      divideGo full (idx + 1) lvl ifz_start started res1
termination_by (full.length, full.length + 1 - idx)
decreasing_by
  · apply Prod.Lex.left
    have hlt : idx < full.length := (List.getElem?_eq_some.mp h).1
    have htake : ((full.drop (ifz_start + 1)).take (idx - (ifz_start + 1))).length
        ≤ idx - (ifz_start + 1) := List.length_take_le _ _
    omega
  · apply Prod.Lex.right
    have hlt : idx < full.length := (List.getElem?_eq_some.mp h).1
    omega
  · apply Prod.Lex.right
    have hlt : idx < full.length := (List.getElem?_eq_some.mp h).1
    omega

/-- `TokenSequence::divide_cmd_slice`: parses a vector of commands into
execution blocks of commands. -/
def divide_cmd_slice (cmd_slice : List Commands) : List ParsingValue :=
  divideGo cmd_slice 0 0 0 false []

/-- `From<Vec<Commands>> for TokenSequence`: allocates capacity of half the
input length and returns the (empty) sequence; the parsing call is
commented out in the source. -/
def TokenSequence.fromCommands (cmds : List Commands) : TokenSequence :=
  TokenSequence.with_capacity (cmds.length / 2)

/-- The length of the `cells` array in `BrainFuckExecutor`:
`[CellType; CellType::MAX as usize]`. -/
def BrainFuckExecutor.cellsLength : Nat := cellTypeMax

/-- Modelled from the spec: `ProgramNode`, the structured-program tree the
Executor walks (the Executor and its program representation are not
implemented in src/main.rs).  A node is a single non-loop command or a
`Loop` block containing an ordered body. -/
inductive ProgramNode where
  | Leaf (c : Commands)
  | Loop (body : List ProgramNode)

/-- The tape length fixed by the spec: exactly `2^W` cells for cell width
`W`; pointer and cell arithmetic both wrap modulo this value. -/
def twoPowW : Nat := 2 ^ cellWidth

/-- Modelled from the spec: `ExecutionState` owns the tape, the pointer and
handles to the input and output byte streams.  The tape is a total map; the
executor only ever reads and writes indices below `twoPowW`. -/
structure ExecutionState where
  tape : Nat → Nat
  ptr : Nat
  input : List Nat
  output : List Nat

/-- Modelled from the spec: per-node semantics of the non-loop commands
(the Executor is absent from src/main.rs; only its state struct
`BrainFuckExecutor` is declared).  Pointer moves and cell increment and
decrement wrap modulo `2^W`; `output` appends the cell's value; `input`
takes one byte, and on exhaustion leaves the cell unchanged and continues.
Loop-start and loop-end never occur as leaves of a structured program, so
they are no-ops here. -/
def execLeaf : Commands → ExecutionState → ExecutionState
  | Commands.PTR_LEFT, s => { s with ptr := (s.ptr + twoPowW - 1) % twoPowW }
  | Commands.PRT_RIGHT, s => { s with ptr := (s.ptr + 1) % twoPowW }
  | Commands.INCR, s =>
      { s with tape := Function.update s.tape s.ptr ((s.tape s.ptr + 1) % twoPowW) }
  | Commands.DECR, s =>
      { s with tape := Function.update s.tape s.ptr ((s.tape s.ptr + twoPowW - 1) % twoPowW) }
  | Commands.OUTP, s => { s with output := s.output ++ [s.tape s.ptr] }
  | Commands.INPT, s =>
      match s.input with
      | [] => s
      | b :: rest => { s with tape := Function.update s.tape s.ptr b, input := rest }
  | Commands.IF_ZERO, s => s
  | Commands.JMP_NZERO, s => s

/-- Modelled from the spec: the Executor's walk over a node sequence.  A
`Loop` body runs while the cell under the pointer is non-zero; a zero cell
on first test falls through to the following node.  `fuel` bounds loop
re-entries so the definition is total; `none` means the bound was hit
(loop-free programs never consume fuel). -/
def runSeq : Nat → List ProgramNode → ExecutionState → Option ExecutionState
  | _, [], s => some s
  | fuel, ProgramNode.Leaf c :: rest, s => runSeq fuel rest (execLeaf c s)
  | fuel, ProgramNode.Loop body :: rest, s =>
    if s.tape s.ptr = 0 then
      runSeq fuel rest s
    else
      match fuel with
      | 0 => none
      | f + 1 =>
        match runSeq f body s with
        | none => none
        | some s2 => runSeq f (ProgramNode.Loop body :: rest) s2
termination_by fuel l _ => (fuel, l.length)
decreasing_by
  all_goals first
    | (apply Prod.Lex.right; simp [List.length_cons])
    | (apply Prod.Lex.left; omega)

/-- Modelled from the spec: a fresh execution state — zeroed tape, pointer
at 0, the given input stream, empty output. -/
def initState (input : List Nat) : ExecutionState :=
  { tape := fun _ => 0, ptr := 0, input := input, output := [] }

/-- In-order sequence of leaf commands of a parsed tree. -/
def leavesList : List ParsingValue → List Commands
  | [] => []
  | ParsingValue.Command c :: rest => c :: leavesList rest
  | ParsingValue.Block b :: rest => leavesList b ++ leavesList rest
termination_by l => sizeOf l
decreasing_by
  all_goals simp_wf
  all_goals omega

/-! ## Helper lemmas -/

/-- Iterating the increment command `n ≥ 1` times leaves the pointer fixed
and sets the cell under it to its original value plus `n`, modulo `2^W`. -/
theorem incr_iterate (n : Nat) (s : ExecutionState) (h : 1 ≤ n) :
    ((execLeaf Commands.INCR)^[n] s).ptr = s.ptr ∧
    ((execLeaf Commands.INCR)^[n] s).tape s.ptr = (s.tape s.ptr + n) % twoPowW := by
  induction n with
  | zero => omega
  | succ n ih =>
    rcases Nat.eq_zero_or_pos n with hn | hn
    · subst hn
      simp [execLeaf, Function.update_same]
    · obtain ⟨hptr, htape⟩ := ih hn
      rw [Function.iterate_succ_apply']
      refine ⟨?_, ?_⟩
      · simp [execLeaf, hptr]
      · simp [execLeaf, hptr, htape, Function.update_same]
        simp [twoPowW, cellWidth]
        omega

/-! ## Claim theorems -/

/-- C1: the claim says structuring a balanced command sequence succeeds with
the tree's leaves equal to the input minus brackets.  On the balanced input
`[+]` the code returns the empty parse — the `ifz_level -= 0` no-op
decrement means a block is never closed, so the loop body's commands are
dropped — and its leaf sequence `[]` differs from the bracket-stripped
input `[INCR]`. -/
theorem divide_cmd_slice_drops_balanced_loop_body :
    divide_cmd_slice [Commands.IF_ZERO, Commands.INCR, Commands.JMP_NZERO] = [] ∧
    leavesList (divide_cmd_slice [Commands.IF_ZERO, Commands.INCR, Commands.JMP_NZERO])
      ≠ [Commands.INCR] := by
  have h : divide_cmd_slice [Commands.IF_ZERO, Commands.INCR, Commands.JMP_NZERO] = [] := by
    rw [divide_cmd_slice, divideGo.eq_def]
    show divideGo [Commands.IF_ZERO, Commands.INCR, Commands.JMP_NZERO] 1 1 0 true [] = []
    rw [divideGo.eq_def]
    show divideGo [Commands.IF_ZERO, Commands.INCR, Commands.JMP_NZERO] 2 1 0 true [] = []
    rw [divideGo.eq_def]
    show divideGo [Commands.IF_ZERO, Commands.INCR, Commands.JMP_NZERO] 3 1 0 true [] = []
    rw [divideGo.eq_def]
    rfl
  refine ⟨h, ?_⟩
  rw [h]
  simp [leavesList]

/-- C2: the claim says a loop-end seen at depth 1 brings the depth back to 0
and appends a structured `Loop` node.  In the code the loop-end handler
runs `ifz_level -= 0`, so on `[]` the scan state after the loop-end still
has depth 1 (first conjunct: processing index 1 hands depth 1, unchanged,
to the next step), and the whole parse of `[]` is empty — no node is ever
appended. -/
theorem loop_end_decrement_is_noop :
    divideGo [Commands.IF_ZERO, Commands.JMP_NZERO] 1 1 0 true []
      = divideGo [Commands.IF_ZERO, Commands.JMP_NZERO] 2 1 0 true [] ∧
    divide_cmd_slice [Commands.IF_ZERO, Commands.JMP_NZERO] = [] := by
  constructor
  · rw [divideGo.eq_def]
    rfl
  · rw [divide_cmd_slice, divideGo.eq_def]
    show divideGo [Commands.IF_ZERO, Commands.JMP_NZERO] 1 1 0 true [] = []
    rw [divideGo.eq_def]
    show divideGo [Commands.IF_ZERO, Commands.JMP_NZERO] 2 1 0 true [] = []
    rw [divideGo.eq_def]
    rfl

/-- C3: the claim says structuring rejects an unmatched `]` with
`UnexpectedClose` and an unmatched `[` with `UnclosedOpen`.  The code has
no error channel at all — `divide_cmd_slice` returns a plain list — and on
both unmatched inputs it returns successfully with the empty parse. -/
theorem divide_cmd_slice_never_errors :
    divide_cmd_slice [Commands.JMP_NZERO] = [] ∧
    divide_cmd_slice [Commands.IF_ZERO] = [] := by
  constructor
  · rw [divide_cmd_slice, divideGo.eq_def]
    show divideGo [Commands.JMP_NZERO] 1 0 0 false [] = []
    rw [divideGo.eq_def]
    rfl
  · rw [divide_cmd_slice, divideGo.eq_def]
    show divideGo [Commands.IF_ZERO] 1 1 0 true [] = []
    rw [divideGo.eq_def]
    rfl

/-- C4: the claim says the tape holds exactly `2^W = 256` cells so every
pointer value is a valid index.  The source declares
`cells: [CellType; CellType::MAX as usize]`, i.e. 255 cells — one short of
`2^8` — so the pointer value 255 is not a valid index. -/
theorem executor_tape_length_off_by_one :
    BrainFuckExecutor.cellsLength = 255 ∧
    BrainFuckExecutor.cellsLength ≠ 2 ^ cellWidth ∧
    ¬ (cellTypeMax < BrainFuckExecutor.cellsLength) := by
  decide

/-- C5: the claim says the pipeline on `+++.` outputs `[3]`.  The
`From<Vec<Commands>>` conversion in the source discards every command
(the parsing call is commented out), so the token sequence built from the
commands of `+++.` is empty, and running an empty program (under the
spec-modelled executor) leaves the output stream empty for any input. -/
theorem pipeline_discards_program :
    (TokenSequence.fromCommands
      [Commands.INCR, Commands.INCR, Commands.INCR, Commands.OUTP]).tokens.data = [] ∧
    ∀ input : List Nat,
      (runSeq 0 [] (initState input)).map ExecutionState.output = some [] := by
  refine ⟨rfl, fun input => ?_⟩
  simp [runSeq, initState]

/-- C6: cell and pointer arithmetic wrap modulo `2^W` (spec-modelled
executor): incrementing `2^W` times returns a cell in range to its original
value; decrementing a zero cell gives `2^W - 1`; moving right from the top
address lands on 0; moving left from 0 lands on the top address. -/
theorem cell_and_pointer_arithmetic_wrap :
    (∀ s : ExecutionState, s.tape s.ptr < twoPowW →
      ((execLeaf Commands.INCR)^[twoPowW] s).tape s.ptr = s.tape s.ptr) ∧
    (∀ s : ExecutionState, s.tape s.ptr = 0 →
      (execLeaf Commands.DECR s).tape s.ptr = twoPowW - 1) ∧
    (∀ s : ExecutionState, s.ptr = twoPowW - 1 →
      (execLeaf Commands.PRT_RIGHT s).ptr = 0) ∧
    (∀ s : ExecutionState, s.ptr = 0 →
      (execLeaf Commands.PTR_LEFT s).ptr = twoPowW - 1) := by
  refine ⟨fun s h => ?_, fun s h => ?_, fun s h => ?_, fun s h => ?_⟩
  · have hiter := (incr_iterate twoPowW s (by decide)).2
    rw [hiter]
    simp [twoPowW, cellWidth] at h ⊢
    omega
  · simp [execLeaf, Function.update_same, h]
  · simp [execLeaf, h, twoPowW, cellWidth]
  · simp [execLeaf, h, twoPowW, cellWidth]

/-- Witness for C6 at concrete states: the zeroed initial state (cell 0,
pointer 0) and the initial state with the pointer at the top address. -/
theorem cell_and_pointer_arithmetic_wrap_witness :
    ((initState []).tape (initState []).ptr < twoPowW ∧
      ((execLeaf Commands.INCR)^[twoPowW] (initState [])).tape (initState []).ptr
        = (initState []).tape (initState []).ptr) ∧
    ((initState []).tape (initState []).ptr = 0 ∧
      (execLeaf Commands.DECR (initState [])).tape (initState []).ptr = twoPowW - 1) ∧
    (({ initState [] with ptr := twoPowW - 1 } : ExecutionState).ptr = twoPowW - 1 ∧
      (execLeaf Commands.PRT_RIGHT { initState [] with ptr := twoPowW - 1 }).ptr = 0) ∧
    ((initState []).ptr = 0 ∧
      (execLeaf Commands.PTR_LEFT (initState [])).ptr = twoPowW - 1) :=
  ⟨⟨by decide, cell_and_pointer_arithmetic_wrap.1 (initState []) (by decide)⟩,
   ⟨rfl, cell_and_pointer_arithmetic_wrap.2.1 (initState []) rfl⟩,
   ⟨rfl, cell_and_pointer_arithmetic_wrap.2.2.1 _ rfl⟩,
   ⟨rfl, cell_and_pointer_arithmetic_wrap.2.2.2 (initState []) rfl⟩⟩

/-- C7: under the spec-modelled executor, an input command on an exhausted
input stream leaves the cell unchanged and execution continues; the
program for `,.,.` with input `[9]` outputs `[9, 9]`. -/
theorem input_exhaustion_leaves_cell :
    (∀ (fuel : Nat) (rest : List ProgramNode) (s : ExecutionState), s.input = [] →
      runSeq fuel (ProgramNode.Leaf Commands.INPT :: rest) s = runSeq fuel rest s) ∧
    (runSeq 0 [ProgramNode.Leaf Commands.INPT, ProgramNode.Leaf Commands.OUTP,
        ProgramNode.Leaf Commands.INPT, ProgramNode.Leaf Commands.OUTP]
        (initState [9])).map ExecutionState.output = some [9, 9] := by
  constructor
  · intro fuel rest s h
    rw [runSeq.eq_def]
    simp [execLeaf, h]
  · simp [runSeq, execLeaf, initState]

/-- Witness for C7: the empty-input initial state satisfies the
exhausted-input hypothesis, and the theorem applies to it. -/
theorem input_exhaustion_leaves_cell_witness :
    (initState []).input = [] ∧
    runSeq 0 [ProgramNode.Leaf Commands.INPT] (initState [])
      = runSeq 0 [] (initState []) :=
  ⟨rfl, input_exhaustion_leaves_cell.1 0 [] (initState []) rfl⟩

/-- C8: under the spec-modelled executor, a `Loop` node whose controlling
cell is 0 executes its body zero times: the run continues at the node after
the `Loop` from the unchanged state. -/
theorem zero_cell_loop_skips_body :
    ∀ (fuel : Nat) (body rest : List ProgramNode) (s : ExecutionState),
      s.tape s.ptr = 0 →
      runSeq fuel (ProgramNode.Loop body :: rest) s = runSeq fuel rest s := by
  intro fuel body rest s h
  rw [runSeq.eq_def]
  simp [h]

/-- Witness for C8: the zeroed initial state has a zero controlling cell,
and a loop over an increment body is skipped entirely. -/
theorem zero_cell_loop_skips_body_witness :
    (initState []).tape (initState []).ptr = 0 ∧
    runSeq 0 [ProgramNode.Loop [ProgramNode.Leaf Commands.INCR]] (initState [])
      = runSeq 0 [] (initState []) :=
  ⟨rfl, zero_cell_loop_skips_body 0 [ProgramNode.Leaf Commands.INCR] [] (initState []) rfl⟩

/-- C9: `From<Vec<Commands>>` always yields a token sequence with zero
tokens and capacity half the input length — the whole program is
discarded. -/
theorem from_commands_always_empty :
    ∀ cmds : List Commands,
      (TokenSequence.fromCommands cmds).tokens.data = [] ∧
      (TokenSequence.fromCommands cmds).tokens.capacity = cmds.length / 2 :=
  fun _ => ⟨rfl, rfl⟩

/-- C10: rendering a command to its one-character string and parsing it back
returns the command, and parsing any string outside the eight command
strings fails with `Err(())`. -/
theorem commands_string_roundtrip :
    (∀ c : Commands, Commands.try_from (Commands.into_str c) = Except.ok c) ∧
    (∀ s : String, s ∉ ["-", "[", "+", ",", "]", ".", ">", "<"] →
      Commands.try_from s = Except.error ()) := by
  constructor
  · intro c
    cases c <;> rfl
  · intro s hs
    simp only [List.mem_cons, List.mem_singleton, not_or] at hs
    obtain ⟨h1, h2, h3, h4, h5, h6, h7, h8⟩ := hs
    simp [Commands.try_from, h1, h2, h3, h4, h5, h6, h7, h8]

/-- Witness for C10: the string `"x"` is outside the command table and
parses to `Err(())`. -/
theorem commands_string_roundtrip_witness :
    "x" ∉ ["-", "[", "+", ",", "]", ".", ">", "<"] ∧
    Commands.try_from "x" = Except.error () :=
  ⟨by decide, commands_string_roundtrip.2 "x" (by decide)⟩
